import Mathlib

/-!
Verification of the mystery-story-bot acquisition-and-selection pipeline.

Shallow embedding of the core pipeline of the repository:
* `src/scraper.py` — gateway fetch with retry/backoff (`_fetch_via_brightdata`),
  listing parser (`_parse_posts`), per-source filter & dedup (`scrape_subreddit`);
* `src/main.py` — round-robin candidate selection and per-candidate downstream
  processing (`run`).

Python dictionaries keyed by source name are embedded as functions from the
source's index in the (insertion-ordered) key list; Python sets are embedded as
lists with membership semantics, or boolean-valued functions.
-/

set_option maxHeartbeats 1000000

namespace StoryBot

/-- A parsed candidate post, as built by `_parse_posts` in `src/scraper.py`
(one entry of the returned list of dicts). -/
structure Post where
  reddit_id : String
  subreddit : String
  title : String
  selftext : String
  score : Int
  url : String
  reddit_created : Option String
  deriving Repr, DecidableEq

/-! ## Listing parser (`_parse_posts`, scraper.py lines 106–132)

A raw Reddit listing payload is modelled down to the fields the parser reads.
A child's `data` dict is `none` when the key is missing; an otherwise present
dict with none of the modelled keys is the empty dict `{}` (falsy in Python). -/

/-- The fields of one item's `data` dictionary that `_parse_posts` reads;
`none` means the key is absent from the dict. -/
structure RawData where
  id : Option String := none
  subreddit : Option String := none
  title : Option String := none
  selftext : Option String := none
  score : Option Int := none
  permalink : Option String := none
  created_utc : Option Int := none
  deriving Repr, DecidableEq

/-- `child.get("data", {})` is falsy exactly when the dict has no keys. -/
def RawData.isEmptyDict (d : RawData) : Bool :=
  d.id.isNone && d.subreddit.isNone && d.title.isNone && d.selftext.isNone
    && d.score.isNone && d.permalink.isNone && d.created_utc.isNone

/-- One wrapper of the `children` array; `data = none` models a missing
`"data"` key. -/
structure RawChild where
  data : Option RawData
  deriving Repr, DecidableEq

/-- The listing payload: `raw_json.get("data", {}).get("children", [])`. -/
structure RawListing where
  children : List RawChild
  deriving Repr, DecidableEq

/-- Zero-padded two-digit rendering used by the ISO timestamp. -/
def pad2 (n : Nat) : String :=
  if n < 10 then "0" ++ toString n else toString n

/-- Civil date from a day count relative to 1970-01-01 (proleptic Gregorian). -/
def civilFromDays (z : Int) : Int × Nat × Nat :=
  let z := z + 719468
  let era : Int := (if 0 ≤ z then z else z - 146096) / 146097
  let doe : Nat := (z - era * 146097).toNat
  let yoe : Nat := (doe - doe / 1460 + doe / 36524 - doe / 146096) / 365
  let y : Int := (yoe : Int) + era * 400
  let doy : Nat := doe - (365 * yoe + yoe / 4 - yoe / 100)
  let mp : Nat := (5 * doy + 2) / 153
  let d : Nat := doy - (153 * mp + 2) / 5 + 1
  let m : Nat := if mp < 10 then mp + 3 else mp - 9
  (if mp < 10 then y else y + 1, m, d)

/-- `datetime.fromtimestamp(secs, tz=timezone.utc).isoformat()`:
ISO-8601 rendering of an epoch-seconds value in UTC. -/
def epochToIso (secs : Int) : String :=
  let days : Int := secs.fdiv 86400
  let sod : Nat := (secs - days * 86400).toNat
  let ymd := civilFromDays days
  toString ymd.1 ++ "-" ++ pad2 ymd.2.1 ++ "-" ++ pad2 ymd.2.2
    ++ "T" ++ pad2 (sod / 3600) ++ ":" ++ pad2 (sod % 3600 / 60)
    ++ ":" ++ pad2 (sod % 60) ++ "+00:00"

/-- The body of the `for child in children` loop of `_parse_posts`: `none`
when the child is skipped (`data` key missing or dict falsy), otherwise the
appended `Post`.  `created_utc` feeds `reddit_created` only when truthy
(absent and `0` are both falsy in Python). -/
def parseChild (child : RawChild) : Option Post :=
  match child.data with
  | none => none
  | some d =>
    if d.isEmptyDict then none
    else
      some {
        reddit_id := d.id.getD ""
        subreddit := d.subreddit.getD ""
        title := d.title.getD ""
        selftext := d.selftext.getD ""
        score := d.score.getD 0
        url := "https://www.reddit.com" ++ d.permalink.getD ""
        reddit_created :=
          match d.created_utc with
          | some v => if v = 0 then none else some (epochToIso v)
          | none => none }

/-- `_parse_posts` (scraper.py lines 106–132): one `Post` per child whose
`data` dict is present and non-empty, preserving payload order. -/
def parsePosts (raw : RawListing) : List Post :=
  raw.children.filterMap parseChild

/-! ## Source filter & dedup (`scrape_subreddit`, scraper.py lines 162–181)

The loop body over the parsed posts of one feed.  The run-scoped `seen_ids`
set is a list with membership semantics; `story_exists` is an oracle
`String → Bool`; the ids it is actually queried with are recorded in
`dbCalls` so that short-circuiting is observable. -/

/-- Rule 2 test (scraper.py line 170): `settings.min_score <= post["score"] <=
settings.max_score`. -/
def scoreRulePass (minScore maxScore s : Int) : Bool :=
  decide (minScore ≤ s) && decide (s ≤ maxScore)

/-- The characters Python's `str.isspace()` accepts — exactly the set
removed by `str.strip()`: U+0009–U+000D, U+001C–U+001F, space, U+0085 (NEL),
U+00A0 (NBSP), U+1680, U+2000–U+200A, U+2028, U+2029, U+202F, U+205F and
U+3000. -/
def pyWhitespace (c : Char) : Bool :=
  (0x9 ≤ c.toNat && c.toNat ≤ 0xd) ||
  (0x1c ≤ c.toNat && c.toNat ≤ 0x20) ||
  c.toNat = 0x85 || c.toNat = 0xa0 || c.toNat = 0x1680 ||
  (0x2000 ≤ c.toNat && c.toNat ≤ 0x200a) ||
  c.toNat = 0x2028 || c.toNat = 0x2029 || c.toNat = 0x202f ||
  c.toNat = 0x205f || c.toNat = 0x3000

/-- Python's `str.strip()`: drop leading and trailing whitespace. -/
def pyStrip (t : String) : String :=
  String.mk (((t.data.dropWhile pyWhitespace).reverse.dropWhile
    pyWhitespace).reverse)

/-- Rule 3 test (scraper.py line 174), negated from the code's rejection test
`not post["selftext"] or len(post["selftext"].strip()) < 100`. -/
def bodyRulePass (t : String) : Bool :=
  !(t.isEmpty || decide ((pyStrip t).length < 100))

/-- Mutable state of the filtering loop of `scrape_subreddit`. -/
structure FilterState where
  seen : List String
  kept : List Post
  dbCalls : List String
  deriving Repr, DecidableEq

/-- Initial state: `all_new_posts = []`, `seen_ids = set()`. -/
def FilterState.init : FilterState := ⟨[], [], []⟩

/-- One iteration of the `for post in posts` loop (scraper.py lines 162–181). -/
def filterOne (minScore maxScore : Int) (storyExists : String → Bool)
    (st : FilterState) (post : Post) : FilterState :=
  if post.reddit_id ∈ st.seen then st
  else
    let st1 : FilterState := { st with seen := post.reddit_id :: st.seen }
    if !scoreRulePass minScore maxScore post.score then st1
    else if !bodyRulePass post.selftext then st1
    else
      let st2 : FilterState := { st1 with dbCalls := st1.dbCalls ++ [post.reddit_id] }
      if storyExists post.reddit_id then st2
      else { st2 with kept := st2.kept ++ [post] }

/-- The whole filtering pass over one feed's parsed posts. -/
def filterPosts (minScore maxScore : Int) (storyExists : String → Bool)
    (st : FilterState) (posts : List Post) : FilterState :=
  posts.foldl (filterOne minScore maxScore storyExists) st

/-! ## Gateway fetch client (`_fetch_via_brightdata`, scraper.py lines 36–103)

One attempt's observable outcome is an oracle `Nat → FetchOutcome` indexed by
the 1-based attempt number.  The embedding returns the parsed payload (or
`none`), the number of attempts performed, and the list of sleeps (seconds)
executed between attempts. -/

/-- Outcome of one gateway attempt, covering every control path of the
`try/except` body: success, non-2xx status, transport error, empty body,
JSON parse failure. -/
inductive FetchOutcome (J : Type) where
  | ok (data : J)
  | httpError (status : Nat)
  | requestError
  | emptyBody
  | jsonError
  deriving Repr, DecidableEq

/-- Does the attempt return parsed data? -/
def FetchOutcome.isOk {J : Type} : FetchOutcome J → Bool
  | .ok _ => true
  | _ => false

/-- Result of the retry loop: returned value, attempts performed, sleeps. -/
structure FetchResult (J : Type) where
  result : Option J
  attempts : Nat
  waits : List Nat
  deriving Repr, DecidableEq

/-- The `for attempt in range(1, max_retries + 1)` loop, structurally recursive
on the number of remaining iterations.  On `.ok` the function returns at once;
otherwise the failure is logged and, when `attempt < max_retries`, the loop
sleeps `2 ** attempt` seconds. -/
def fetchAux {J : Type} (oracle : Nat → FetchOutcome J) (maxRetries : Nat) :
    Nat → Nat → FetchResult J
  | _, 0 => ⟨none, 0, []⟩
  | attempt, rem + 1 =>
    match oracle attempt with
    | .ok data => ⟨some data, 1, []⟩
    | _ =>
      let w : List Nat := if attempt < maxRetries then [2 ^ attempt] else []
      let r := fetchAux oracle maxRetries (attempt + 1) rem
      ⟨r.result, r.attempts + 1, w ++ r.waits⟩

/-- `_fetch_via_brightdata(settings, target_url, max_retries=3)`: run the
attempt loop from attempt 1; `None` after exhausting all attempts. -/
def fetchViaBrightdata {J : Type} (oracle : Nat → FetchOutcome J)
    (maxRetries : Nat) : FetchResult J :=
  fetchAux oracle maxRetries 1 maxRetries

/-! ## Round-robin selector (`run`, main.py lines 92–105)

`iterators = {sub: iter(posts) for sub, posts in posts_by_sub.items() if posts}`
keeps only the non-empty candidate lists, in insertion order; sources are
embedded by their index in that filtered list.  `cycle(list(iterators.keys()))`
is embedded by a position counter visited modulo the number of sources; a
per-source iterator is the list of its not-yet-drawn candidates; the
`exhausted` set is a boolean-valued function on source indices. -/

/-- State of the `while` selection loop of `run` (main.py lines 92–105). -/
structure RRState (α : Type) where
  out : List α
  rem : Nat → List α
  exh : Nat → Bool
  pos : Nat

/-- `len(exhausted)`: number of exhausted sources among the `m` cycled ones. -/
def exhCount {α : Type} (m : Nat) (s : RRState α) : Nat :=
  (List.range m).countP (fun j => s.exh j)

/-- The loop guard
`len(candidates) < settings.max_stories_per_run and len(exhausted) < len(iterators)`. -/
def rrCond {α : Type} (m cap : Nat) (s : RRState α) : Bool :=
  decide (s.out.length < cap) && decide (exhCount m s < m)

/-- One iteration of the loop body: take the next source of the cycle; skip it
if exhausted; otherwise draw its next candidate, or mark it exhausted when its
iterator raises `StopIteration`. -/
def rrStep {α : Type} (m : Nat) (s : RRState α) : RRState α :=
  let i := s.pos % m
  if s.exh i then { s with pos := s.pos + 1 }
  else
    match s.rem i with
    | [] => { s with exh := Function.update s.exh i true, pos := s.pos + 1 }
    | x :: xs =>
      { s with out := s.out ++ [x], rem := Function.update s.rem i xs,
               pos := s.pos + 1 }

/-- The selection loop with an explicit iteration budget; `none` means the
budget ran out before the guard turned false. -/
def rrLoop {α : Type} (m cap : Nat) : Nat → RRState α → Option (RRState α)
  | 0, s => if rrCond m cap s then none else some s
  | fuel + 1, s =>
    if rrCond m cap s then rrLoop m cap fuel (rrStep m s) else some s

/-- The non-empty candidate lists, in their insertion order
(`... if posts` in the `iterators` comprehension). -/
def rrSources {α : Type} (subsAll : List (List α)) : List (List α) :=
  subsAll.filter (fun l => !l.isEmpty)

/-- Initial loop state: no candidate selected, every iterator at its list's
head, no source exhausted, cycle at its first key. -/
def rrInit {α : Type} (subs : List (List α)) : RRState α :=
  ⟨[], fun j => subs.getD j [], fun _ => false, 0⟩

/-- Total number of candidates across sources. -/
def totalLen {α : Type} (subs : List (List α)) : Nat :=
  (subs.map List.length).sum

/-- An iteration budget sufficient for the loop to reach a final state. -/
def rrFuel {α : Type} (subs : List (List α)) : Nat :=
  (totalLen subs + 2) * subs.length

/-- The whole selection phase of `run`: the `candidates` list once the
`while` loop has stopped. -/
def roundRobinSelect {α : Type} (subsAll : List (List α)) (cap : Nat) :
    Option (List α) :=
  let subs := rrSources subsAll
  (rrLoop subs.length cap (rrFuel subs) (rrInit subs)).map RRState.out

/-- The state after `n` iterations of the guarded loop (the state is left
unchanged once the guard is false). -/
def rrRun {α : Type} (m cap : Nat) (s : RRState α) : Nat → RRState α
  | 0 => s
  | n + 1 =>
    if rrCond m cap (rrRun m cap s n) then rrStep m (rrRun m cap s n)
    else rrRun m cap s n

/-- The loop state reached after `n` iterations on input `subsAll`. -/
def rrReach {α : Type} (subsAll : List (List α)) (cap n : Nat) : RRState α :=
  rrRun (rrSources subsAll).length cap (rrInit (rrSources subsAll)) n

/-- Length of source `j`'s full candidate list. -/
def lenAt {α : Type} (subs : List (List α)) (j : Nat) : Nat :=
  (subs.getD j []).length

/-- Number of candidates drawn so far from source `j` at the state reached
after `n` iterations. -/
def rrDrawn {α : Type} (subsAll : List (List α)) (cap n j : Nat) : Nat :=
  lenAt (rrSources subsAll) j - ((rrReach subsAll cap n).rem j).length

/-! ## Per-candidate downstream processing (`run`, main.py lines 116–164)

The external collaborators (GPT generation, Discord, TTS) are oracles supplied
as functions; SQLite storage is the list of inserted stories, `insert_story`
appends and returns the new row id (1-based position).  A `.error` outcome of
an oracle models the Python call raising. -/

/-- A stored row of the `stories` table, as far as `run` writes it. -/
structure Story where
  post : Post
  script : String
  keywords : List String
  deriving Repr, DecidableEq

/-- External collaborators of the processing loop; each may raise. -/
structure ProcEnv where
  generateScript : String → String → Except String (String × List String)
  sendStoryCard : Nat → Post → String → List String → Except String Unit
  generateTts : Nat → String → String → Except String Unit

/-- Counters of the processing loop. -/
structure ProcTally where
  db : List Story
  processed : Nat
  errors : Nat
  deriving Repr, DecidableEq

/-- One iteration of the `for post in candidates` loop (main.py lines
116–164): generation, then insert, then notification inside the outer
`try`; TTS inside its own inner `try` whose failure is only logged. -/
def processOne (env : ProcEnv) (t : ProcTally) (post : Post) : ProcTally :=
  match env.generateScript post.title post.selftext with
  | .error _ => { t with errors := t.errors + 1 }
  | .ok (script, keywords) =>
    let db' := t.db ++ [⟨post, script, keywords⟩]
    let storyId := db'.length
    match env.sendStoryCard storyId post script keywords with
    | .error _ => { t with db := db', errors := t.errors + 1 }
    | .ok _ =>
      match env.generateTts storyId post.title script with
      | _ => { t with db := db', processed := t.processed + 1 }

/-- The whole processing loop over the selected batch. -/
def processAll (env : ProcEnv) (t : ProcTally) (batch : List Post) : ProcTally :=
  batch.foldl (processOne env) t

/-! ## Round-robin loop invariant: visit counts of the cycle -/

/-- Number of visits the cycle has paid to source `j` within the first `pos`
loop iterations: the number of completed rounds, plus one when `j` has
already been passed in the current round. -/
def vOf (m pos j : Nat) : Nat :=
  pos / m + if j < pos % m then 1 else 0

/-- Loop invariant of the selection loop.  At every reachable state, source
`j` has yielded `min (lenAt subs j) (vOf m pos j)` candidates, its exhausted
flag is set exactly when the cycle has visited it one more time than it has
candidates, and the output length is the total number of drawn candidates,
never exceeding the cap. -/
def rrInv {α : Type} (subs : List (List α)) (cap : Nat) (s : RRState α) :
    Prop :=
  (∀ j, j < subs.length →
    s.rem j =
      (subs.getD j []).drop
        (min (lenAt subs j) (vOf subs.length s.pos j))) ∧
  (∀ j, j < subs.length →
    s.exh j = decide (lenAt subs j < vOf subs.length s.pos j)) ∧
  s.out.length =
    ∑ j ∈ Finset.range subs.length,
      min (lenAt subs j) (vOf subs.length s.pos j) ∧
  s.out.length ≤ cap ∧
  (s.out : Multiset α) +
      ∑ j ∈ Finset.range subs.length, ((s.rem j : List α) : Multiset α) =
    ∑ j ∈ Finset.range subs.length, ((subs.getD j [] : List α) : Multiset α)

/-- A processing environment whose generation step always raises. -/
def failingGenEnv : ProcEnv :=
  { generateScript := fun _ _ => Except.error "empty script"
    sendStoryCard := fun _ _ _ _ => Except.ok ()
    generateTts := fun _ _ _ => Except.ok () }

/-! ## Concrete fixtures used by counterexamples and witnesses -/

/-- A 100-character body with no surrounding whitespace. -/
def longBody : String := String.mk (List.replicate 100 'a')

/-- A candidate that passes every filter rule for bounds `[0, 100]`. -/
def goodPost : Post :=
  { reddit_id := "g", subreddit := "s", title := "t", selftext := longBody,
    score := 5, url := "u", reddit_created := none }

/-- A candidate whose score 5 is outside the bounds `[10, 100]`. -/
def scoreRejectPost : Post :=
  { reddit_id := "a", subreddit := "s", title := "t", selftext := "",
    score := 5, url := "u", reddit_created := none }

/-- A listing with one item whose `created_utc` is present and equal to 0. -/
def zeroEpochListing : RawListing :=
  ⟨[⟨some { id := some "x", created_utc := some 0 }⟩]⟩

/-- A listing with one non-empty item data dict that lacks the `id` field. -/
def noIdListing : RawListing := ⟨[⟨some { title := some "x" }⟩]⟩

/-! ## Filter lemmas -/

/-- Branch-free characterisation of one filter iteration. -/
theorem filterOne_spec (minScore maxScore : Int) (storyExists : String → Bool)
    (st : FilterState) (p : Post) :
    (filterOne minScore maxScore storyExists st p).seen =
      (if p.reddit_id ∈ st.seen then st.seen else p.reddit_id :: st.seen) ∧
    (filterOne minScore maxScore storyExists st p).kept =
      st.kept ++
        (if p.reddit_id ∉ st.seen ∧ scoreRulePass minScore maxScore p.score = true
            ∧ bodyRulePass p.selftext = true ∧ storyExists p.reddit_id = false
          then [p] else []) ∧
    (filterOne minScore maxScore storyExists st p).dbCalls =
      st.dbCalls ++
        (if p.reddit_id ∉ st.seen ∧ scoreRulePass minScore maxScore p.score = true
            ∧ bodyRulePass p.selftext = true
          then [p.reddit_id] else []) := by
  by_cases h1 : p.reddit_id ∈ st.seen
  · simp [filterOne, h1]
  · by_cases h2 : scoreRulePass minScore maxScore p.score = true
    · by_cases h3 : bodyRulePass p.selftext = true
      · by_cases h4 : storyExists p.reddit_id = true
        · simp [filterOne, h1, h2, h3, h4]
        · simp only [Bool.not_eq_true] at h4
          simp [filterOne, h1, h2, h3, h4]
      · simp only [Bool.not_eq_true] at h3
        simp [filterOne, h1, h2, h3]
    · simp only [Bool.not_eq_true] at h2
      simp [filterOne, h1, h2]

/-- Every candidate the filtering pass adds to `kept` passed the score rule
and the body rule. -/
theorem filterPosts_kept_mem (minScore maxScore : Int)
    (storyExists : String → Bool) (st : FilterState) (posts : List Post)
    (p : Post)
    (h : p ∈ (filterPosts minScore maxScore storyExists st posts).kept) :
    p ∈ st.kept ∨
      (scoreRulePass minScore maxScore p.score = true ∧
       bodyRulePass p.selftext = true) := by
  induction posts generalizing st with
  | nil => exact Or.inl h
  | cons q rest ih =>
    have h' : p ∈ (filterPosts minScore maxScore storyExists
        (filterOne minScore maxScore storyExists st q) rest).kept := h
    rcases ih _ h' with hk | hr
    · rw [(filterOne_spec minScore maxScore storyExists st q).2.1] at hk
      rcases List.mem_append.mp hk with h5 | h5
      · exact Or.inl h5
      · split at h5
        · next hcnd =>
          have hpq : p = q := by simpa using h5
          subst hpq
          exact Or.inr ⟨hcnd.2.1, hcnd.2.2.1⟩
        · simp at h5
    · exact Or.inr hr

/-! ## Claims C3, C5, C6 — the filter -/

/-- C3 (counterexample): with bounds `[10, 100]` the candidate
`scoreRejectPost` (score 5) is rejected by the score rule, yet its id `"a"`
ends up in `seen_ids_this_run` and the candidate is not kept — refuting
"inserted iff the candidate passed all four rules and was kept" and
"a candidate rejected by the score rule leaves `seen_ids_this_run`
unchanged". -/
theorem c3_counterexample :
    (filterPosts 10 100 (fun _ => false) FilterState.init
        [scoreRejectPost]).seen = ["a"] ∧
    (filterPosts 10 100 (fun _ => false) FilterState.init
        [scoreRejectPost]).kept = [] := by
  exact ⟨rfl, rfl⟩

/-- C3 (amended): the id is inserted into `seen_ids_this_run` as soon as the
candidate passes the intra-run dedup rule — before the score, body-length and
persisted-state rules — so candidates rejected by those later rules still
have their id inserted; a candidate is kept iff it passes all four rules; the
later rules short-circuit, and the persisted-state lookup is performed only
when the dedup, score and body rules all passed. -/
theorem c3_amended (minScore maxScore : Int) (storyExists : String → Bool)
    (st : FilterState) (p : Post) :
    (filterOne minScore maxScore storyExists st p).seen =
      (if p.reddit_id ∈ st.seen then st.seen else p.reddit_id :: st.seen) ∧
    (filterOne minScore maxScore storyExists st p).kept =
      st.kept ++
        (if p.reddit_id ∉ st.seen ∧ scoreRulePass minScore maxScore p.score = true
            ∧ bodyRulePass p.selftext = true ∧ storyExists p.reddit_id = false
          then [p] else []) ∧
    (filterOne minScore maxScore storyExists st p).dbCalls =
      st.dbCalls ++
        (if p.reddit_id ∉ st.seen ∧ scoreRulePass minScore maxScore p.score = true
            ∧ bodyRulePass p.selftext = true
          then [p.reddit_id] else []) :=
  filterOne_spec minScore maxScore storyExists st p

/-- C5: a candidate whose `popularity_score` lies outside
`[min_score, max_score]` is never added to the kept list, whatever its other
fields; and the bounds are inclusive — scores equal to either bound pass the
score rule. -/
theorem c5_score_bounds (minScore maxScore : Int) :
    (∀ (storyExists : String → Bool) (st : FilterState) (posts : List Post)
        (p : Post),
        p ∈ (filterPosts minScore maxScore storyExists st posts).kept →
        p ∉ st.kept → minScore ≤ p.score ∧ p.score ≤ maxScore) ∧
    (minScore ≤ maxScore →
      scoreRulePass minScore maxScore minScore = true ∧
      scoreRulePass minScore maxScore maxScore = true) := by
  constructor
  · intro storyExists st posts p hmem hnot
    rcases filterPosts_kept_mem minScore maxScore storyExists st posts p hmem
      with h | h
    · exact absurd h hnot
    · have hs := h.1
      simpa [scoreRulePass, decide_eq_true_eq] using hs
  · intro hle
    constructor <;> simp [scoreRulePass, hle]

/-- C5 witness: a concrete run on bounds `[0, 100]` keeps `goodPost`
(score 5), and its score satisfies the bounds; scores 0 and 100 pass the
rule. -/
theorem c5_score_bounds_witness :
    ((0 : Int) ≤ goodPost.score ∧ goodPost.score ≤ 100) ∧
    (scoreRulePass 0 100 0 = true ∧ scoreRulePass 0 100 100 = true) :=
  ⟨(c5_score_bounds 0 100).1 (fun _ => false) FilterState.init [goodPost]
      goodPost (by decide) (by decide),
   (c5_score_bounds 0 100).2 (by decide)⟩

/-- C6: a kept candidate always has a non-empty body whose trimmed length is
at least 100; a trimmed length of 99 fails the body rule (so such a candidate
is never kept), and a trimmed length of exactly 100 passes it. -/
theorem c6_body_rule :
    (∀ (minScore maxScore : Int) (storyExists : String → Bool)
        (st : FilterState) (posts : List Post) (p : Post),
        p ∈ (filterPosts minScore maxScore storyExists st posts).kept →
        p ∉ st.kept →
        p.selftext.isEmpty = false ∧ 100 ≤ (pyStrip p.selftext).length) ∧
    (∀ t : String, (pyStrip t).length = 99 → bodyRulePass t = false) ∧
    (∀ t : String, (pyStrip t).length = 100 → bodyRulePass t = true) := by
  refine ⟨?_, ?_, ?_⟩
  · intro minScore maxScore storyExists st posts p hmem hnot
    rcases filterPosts_kept_mem minScore maxScore storyExists st posts p hmem
      with h | h
    · exact absurd h hnot
    · have hb := h.2
      simp only [bodyRulePass, Bool.not_eq_true', Bool.or_eq_false_iff,
        decide_eq_false_iff_not, not_lt] at hb
      exact hb
  · intro t ht
    simp [bodyRulePass, ht]
  · intro t ht
    have hne : t.isEmpty = false := by
      rcases Bool.eq_false_or_eq_true t.isEmpty with h | h
      · have ht0 : t = "" := (String.isEmpty_iff t).mp h
        rw [ht0] at ht
        simp [pyStrip] at ht
      · exact h
    simp [bodyRulePass, hne, ht]

/-- C6 witness: the concrete run keeping `goodPost` (trimmed length 100),
a concrete 99-character string failing the rule, and `longBody` passing it. -/
theorem c6_body_rule_witness :
    (goodPost.selftext.isEmpty = false ∧
      100 ≤ (pyStrip goodPost.selftext).length) ∧
    bodyRulePass (String.mk (List.replicate 99 'a')) = false ∧
    bodyRulePass longBody = true :=
  ⟨c6_body_rule.1 0 100 (fun _ => false) FilterState.init [goodPost] goodPost
      (by decide) (by decide),
   c6_body_rule.2.1 (String.mk (List.replicate 99 'a')) (by decide),
   c6_body_rule.2.2 longBody (by decide)⟩

/-! ## Claims C7, C8 — the parser -/

/-- C7 (counterexample): an item whose `created_utc` field is present with
value 0 is parsed with `source_created_at` absent, not with the ISO
conversion of epoch 0 — refuting "an epoch-seconds value of 0 is present and
must convert, not be treated as absent". -/
theorem c7_counterexample :
    (parsePosts zeroEpochListing).map Post.reddit_created = [none] ∧
    ([none] : List (Option String)) ≠ [some (epochToIso 0)] := by
  exact ⟨rfl, by simp⟩

/-- C7 (amended): `source_created_at` is the ISO-8601 UTC conversion of the
epoch-seconds field whenever that field is present with a nonzero value, and
is an explicit no-value when the field is absent or equal to 0 (Python
truthiness treats 0 like absence). -/
theorem c7_amended (d : RawData) (hd : d.isEmptyDict = false) :
    (parseChild ⟨some d⟩).map Post.reddit_created =
      some (match d.created_utc with
            | some v => if v = 0 then none else some (epochToIso v)
            | none => none) := by
  simp [parseChild, hd]

/-- C7 witness: a concrete item with nonzero `created_utc` converts, and a
concrete item without the field yields no value. -/
theorem c7_amended_witness :
    (parseChild ⟨some { id := some "x", created_utc := some 1700000000 }⟩).map
        Post.reddit_created = some (some (epochToIso 1700000000)) ∧
    (parseChild ⟨some { id := some "x" }⟩).map Post.reddit_created =
      some none :=
  ⟨c7_amended { id := some "x", created_utc := some 1700000000 } rfl,
   c7_amended { id := some "x" } rfl⟩

/-- C8 (counterexample): a payload whose item data dict is non-empty but
lacks the `id` field produces a `CandidatePost` whose `external_id` is the
empty string — refuting "every CandidatePost produced by the Parser has a
non-empty external_id ... including payloads whose item data dictionaries
lack an id field". -/
theorem c8_counterexample :
    (parsePosts noIdListing).map Post.reddit_id = [""] := rfl

/-- C8 (amended): `external_id` defaults to the empty string when the item's
`id` field is absent; the invariant holds exactly for payloads in which every
parsed item data dict carries a non-empty `id` field. -/
theorem c8_amended (raw : RawListing) (p : Post)
    (h : ∀ child ∈ raw.children, ∀ d : RawData, child.data = some d →
        d.isEmptyDict = false → d.id.getD "" ≠ "")
    (hp : p ∈ parsePosts raw) :
    p.reddit_id ≠ "" := by
  rcases List.mem_filterMap.mp hp with ⟨child, hc, hpc⟩
  cases hchild : child.data with
  | none => rw [parseChild, hchild] at hpc; cases hpc
  | some d =>
    by_cases hde : d.isEmptyDict = true
    · rw [parseChild, hchild] at hpc
      simp [hde] at hpc
    · have hde' : d.isEmptyDict = false := by
        simpa using hde
      have hid : p.reddit_id = d.id.getD "" := by
        rw [parseChild, hchild] at hpc
        simp only [hde', Bool.false_eq_true, if_false, Option.some.injEq]
          at hpc
        rw [← hpc]
      rw [hid]
      exact h child hc d hchild hde'

/-- C8 witness: the post parsed from a concrete one-item payload whose data
dict has `id = "x"` has a non-empty id. -/
theorem c8_amended_witness :
    (⟨"x", "", "y", "", 0, "https://www.reddit.com", none⟩ : Post).reddit_id
      ≠ "" :=
  c8_amended ⟨[⟨some { id := some "x", title := some "y" }⟩]⟩
    ⟨"x", "", "y", "", 0, "https://www.reddit.com", none⟩
    (by
      intro child hc d hd hne
      simp only [List.mem_singleton] at hc
      subst hc
      simp only [Option.some.injEq] at hd
      subst hd
      decide)
    (by decide)

/-! ## Claim C4 — the fetch client's retry loop -/

/-- A failing attempt performs one more attempt, adds the backoff sleep when
it is not the final attempt, and defers to the rest of the loop. -/
theorem fetchAux_fail {J : Type} (oracle : Nat → FetchOutcome J)
    (maxRetries attempt rem : Nat)
    (h : (oracle attempt).isOk = false) :
    fetchAux oracle maxRetries attempt (rem + 1) =
      ⟨(fetchAux oracle maxRetries (attempt + 1) rem).result,
       (fetchAux oracle maxRetries (attempt + 1) rem).attempts + 1,
       (if attempt < maxRetries then [2 ^ attempt] else []) ++
         (fetchAux oracle maxRetries (attempt + 1) rem).waits⟩ := by
  cases ho : oracle attempt <;>
    simp [fetchAux, ho, FetchOutcome.isOk] at h ⊢

/-- A successful attempt returns the parsed data at once, with no further
attempt and no sleep. -/
theorem fetchAux_ok {J : Type} (oracle : Nat → FetchOutcome J)
    (maxRetries attempt rem : Nat) (d : J)
    (h : oracle attempt = FetchOutcome.ok d) :
    fetchAux oracle maxRetries attempt (rem + 1) = ⟨some d, 1, []⟩ := by
  simp [fetchAux, h]

/-- C4: with `max_retries = 3`, if every attempt fails the client performs
exactly 3 attempts, sleeps 2 s after attempt 1 and 4 s after attempt 2 with
no wait after the final attempt, and returns `None` (it never raises: the
embedding is a total function); if the first two attempts fail and the third
succeeds, exactly 3 attempts occur, the same two sleeps occur, and the parsed
JSON is returned. -/
theorem c4_fetch_retry {J : Type} (oracle : Nat → FetchOutcome J) :
    ((∀ a, (oracle a).isOk = false) →
      fetchViaBrightdata oracle 3 =
        { result := none, attempts := 3, waits := [2, 4] }) ∧
    (∀ d : J, (oracle 1).isOk = false → (oracle 2).isOk = false →
      oracle 3 = FetchOutcome.ok d →
      fetchViaBrightdata oracle 3 =
        { result := some d, attempts := 3, waits := [2, 4] }) := by
  constructor
  · intro h
    rw [fetchViaBrightdata, fetchAux_fail oracle 3 1 2 (h 1),
      fetchAux_fail oracle 3 2 1 (h 2), fetchAux_fail oracle 3 3 0 (h 3)]
    simp [fetchAux]
  · intro d h1 h2 h3
    rw [fetchViaBrightdata, fetchAux_fail oracle 3 1 2 h1,
      fetchAux_fail oracle 3 2 1 h2, fetchAux_ok oracle 3 3 0 d h3]
    simp

/-- C4 witness: a stub that always fails gives 3 attempts, waits [2, 4] and
no result; a stub failing twice then succeeding gives 3 attempts, waits
[2, 4] and the parsed value. -/
theorem c4_fetch_retry_witness :
    fetchViaBrightdata (fun _ => (FetchOutcome.requestError : FetchOutcome Nat)) 3 =
      { result := none, attempts := 3, waits := [2, 4] } ∧
    fetchViaBrightdata
        (fun a => if a = 3 then FetchOutcome.ok 42 else FetchOutcome.requestError) 3 =
      { result := some 42, attempts := 3, waits := [2, 4] } :=
  ⟨(c4_fetch_retry (fun _ => FetchOutcome.requestError)).1 (fun _ => rfl),
   (c4_fetch_retry
      (fun a => if a = 3 then FetchOutcome.ok 42 else FetchOutcome.requestError)).2
     42 rfl rfl rfl⟩

/-! ## Claim C9 — persistence strictly after generation -/

/-- C9: when generation raises for a candidate, nothing is inserted into
storage for it (the stored state is unchanged), the failure is counted, and
the loop continues with the remaining candidates from the same stored
state. -/
theorem c9_persist_after_generation (env : ProcEnv) (t : ProcTally)
    (post : Post) (rest : List Post) (e : String)
    (hgen : env.generateScript post.title post.selftext = Except.error e) :
    processOne env t post = { t with errors := t.errors + 1 } ∧
    (processOne env t post).db = t.db ∧
    processAll env t (post :: rest) =
      processAll env { t with errors := t.errors + 1 } rest := by
  refine ⟨?_, ?_, ?_⟩ <;> simp [processOne, processAll, hgen]

/-- C9 witness: with an always-raising generator, processing `goodPost`
leaves the store empty, counts one error, and the loop proceeds. -/
theorem c9_persist_after_generation_witness :
    processOne failingGenEnv ⟨[], 0, 0⟩ goodPost = ⟨[], 0, 1⟩ ∧
    (processOne failingGenEnv ⟨[], 0, 0⟩ goodPost).db = [] ∧
    processAll failingGenEnv ⟨[], 0, 0⟩ [goodPost] =
      processAll failingGenEnv ⟨[], 0, 1⟩ [] :=
  c9_persist_after_generation failingGenEnv ⟨[], 0, 0⟩ goodPost []
    "empty script" rfl

/-! ## Round-robin selector: arithmetic of the cycle position -/

/-- Division and remainder of a successor position by the cycle length. -/
theorem divmod_succ (m pos : Nat) (hm : 0 < m) :
    (pos % m + 1 = m →
      (pos + 1) / m = pos / m + 1 ∧ (pos + 1) % m = 0) ∧
    (pos % m + 1 < m →
      (pos + 1) / m = pos / m ∧ (pos + 1) % m = pos % m + 1) := by
  have hdm : m * (pos / m) + pos % m = pos := Nat.div_add_mod pos m
  have hms : m * (pos / m + 1) = m * (pos / m) + m := Nat.mul_succ m (pos / m)
  generalize hP : m * (pos / m) = P at hdm hms
  constructor
  · intro h
    refine (Nat.div_mod_unique hm).mpr ⟨?_, hm⟩
    rw [hms]
    omega
  · intro h
    refine (Nat.div_mod_unique hm).mpr ⟨?_, h⟩
    rw [hP]
    omega

/-- Advancing the cycle by one step increments the visit count of exactly the
currently visited source. -/
theorem vOf_succ (m pos j : Nat) (hm : 0 < m) (hj : j < m) :
    vOf m (pos + 1) j = vOf m pos j + (if j = pos % m then 1 else 0) := by
  have hi : pos % m < m := Nat.mod_lt _ hm
  by_cases h : pos % m + 1 = m
  · obtain ⟨h1, h2⟩ := (divmod_succ m pos hm).1 h
    rw [vOf, vOf, h1, h2]
    split_ifs <;> omega
  · have h' : pos % m + 1 < m := by omega
    obtain ⟨h1, h2⟩ := (divmod_succ m pos hm).2 h'
    rw [vOf, vOf, h1, h2]
    split_ifs <;> omega

/-- At position 0, no source has been visited. -/
theorem vOf_zero (m j : Nat) : vOf m 0 j = 0 := by
  simp [vOf]

/-! ## Round-robin selector: step lemmas -/

/-- Every loop iteration advances the cycle by one. -/
theorem rrStep_pos {α : Type} (m : Nat) (s : RRState α) :
    (rrStep m s).pos = s.pos + 1 := by
  rw [rrStep]
  split
  · rfl
  · split <;> rfl

/-- A visit to an exhausted source only advances the cycle. -/
theorem rrStep_skip {α : Type} (m : Nat) (s : RRState α)
    (hx : s.exh (s.pos % m) = true) :
    rrStep m s = { s with pos := s.pos + 1 } := by
  simp [rrStep, hx]

/-- A visit to a non-exhausted source with a consumed iterator marks it
exhausted. -/
theorem rrStep_exhaust {α : Type} (m : Nat) (s : RRState α)
    (hx : s.exh (s.pos % m) = false) (hr : s.rem (s.pos % m) = []) :
    rrStep m s =
      { s with exh := Function.update s.exh (s.pos % m) true,
               pos := s.pos + 1 } := by
  simp [rrStep, hx, hr]

/-- A visit to a non-exhausted source with a pending candidate draws it. -/
theorem rrStep_draw {α : Type} (m : Nat) (s : RRState α) (x : α)
    (xs : List α) (hx : s.exh (s.pos % m) = false)
    (hr : s.rem (s.pos % m) = x :: xs) :
    rrStep m s =
      { s with out := s.out ++ [x],
               rem := Function.update s.rem (s.pos % m) xs,
               pos := s.pos + 1 } := by
  simp [rrStep, hx, hr]

/-! ## Round-robin selector: exhausted-count lemmas -/

/-- The exhausted set never outgrows the cycled sources. -/
theorem exhCount_le {α : Type} (m : Nat) (s : RRState α) :
    exhCount m s ≤ m := by
  have h := List.countP_le_length (fun j => s.exh j) (l := List.range m)
  simpa [exhCount] using h

/-- The loop guard's second conjunct holds exactly when some cycled source is
not yet exhausted. -/
theorem exhCount_lt_iff {α : Type} (m : Nat) (s : RRState α) :
    exhCount m s < m ↔ ∃ j, j < m ∧ s.exh j = false := by
  have hle := exhCount_le m s
  have hiff := List.countP_eq_length
    (p := fun j => s.exh j) (l := List.range m)
  rw [List.length_range] at hiff
  constructor
  · intro h
    by_contra hc
    push_neg at hc
    have : exhCount m s = m := by
      rw [exhCount]
      refine hiff.mpr ?_
      intro a ha
      have := hc a (List.mem_range.mp ha)
      simpa using this
    omega
  · rintro ⟨j, hj, hx⟩
    rcases Nat.lt_or_ge (exhCount m s) m with h | h
    · exact h
    · exfalso
      have heq : exhCount m s = m := le_antisymm hle h
      have := hiff.mp heq j (List.mem_range.mpr hj)
      rw [hx] at this
      cases this

/-- All flags set once the exhausted count reaches the source count. -/
theorem exhCount_eq_all {α : Type} (m : Nat) (s : RRState α)
    (h : exhCount m s = m) : ∀ j, j < m → s.exh j = true := by
  have hiff := List.countP_eq_length
    (p := fun j => s.exh j) (l := List.range m)
  rw [List.length_range] at hiff
  intro j hj
  exact hiff.mp h j (List.mem_range.mpr hj)

/-! ## Round-robin selector: totals -/

/-- Each source's list is no longer than the total. -/
theorem lenAt_le_total {α : Type} (subs : List (List α)) (j : Nat)
    (hj : j < subs.length) : lenAt subs j ≤ totalLen subs := by
  rw [lenAt, List.getD_eq_getElem subs [] hj, totalLen]
  exact List.single_le_sum (by simp) _
    (List.mem_map_of_mem List.length (List.getElem_mem hj))

/-- The per-index sum of source lengths is the total. -/
theorem sum_lenAt {α : Type} (subs : List (List α)) :
    ∑ j ∈ Finset.range subs.length, lenAt subs j = totalLen subs := by
  induction subs with
  | nil => simp [totalLen]
  | cons a rest ih =>
    rw [List.length_cons, Finset.sum_range_succ']
    simp only [lenAt, List.getD_cons_succ, List.getD_cons_zero]
    simp only [lenAt] at ih
    rw [ih]
    simp only [totalLen, List.map_cons, List.sum_cons]
    omega

/-- Empty candidate lists contribute nothing: filtering them away preserves
the total. -/
theorem totalLen_rrSources {α : Type} (subsAll : List (List α)) :
    totalLen (rrSources subsAll) = totalLen subsAll := by
  induction subsAll with
  | nil => rfl
  | cons a rest ih =>
    rw [rrSources, List.filter_cons]
    by_cases h : a.isEmpty
    · have ha : a = [] := List.isEmpty_iff.mp h
      subst ha
      simpa [rrSources, totalLen, List.map_cons] using ih
    · have h' : (!a.isEmpty) = true := by simp [h]
      rw [if_pos h']
      have h2 : totalLen (a :: List.filter (fun l => !l.isEmpty) rest)
          = a.length + totalLen (List.filter (fun l => !l.isEmpty) rest) := by
        simp [totalLen]
      have h3 : totalLen (a :: rest) = a.length + totalLen rest := by
        simp [totalLen]
      rw [rrSources] at ih
      omega

/-- The invariant holds at the initial state. -/
theorem rrInv_init {α : Type} (subs : List (List α)) (cap : Nat) :
    rrInv subs cap (rrInit subs) := by
  refine ⟨?_, ?_, ?_, ?_, ?_⟩ <;> simp [rrInit, vOf_zero, lenAt]

/-- The invariant is preserved by every guarded loop iteration. -/
theorem rrInv_step {α : Type} (subs : List (List α)) (cap : Nat)
    (s : RRState α) (hinv : rrInv subs cap s)
    (hcond : rrCond subs.length cap s = true) :
    rrInv subs cap (rrStep subs.length s) := by
  obtain ⟨hrem, hexh, hlen, hcap, hms⟩ := hinv
  have hcnd : s.out.length < cap ∧ exhCount subs.length s < subs.length := by
    simpa [rrCond] using hcond
  have hm : 0 < subs.length := Nat.lt_of_le_of_lt (Nat.zero_le _) hcnd.2
  have hi : s.pos % subs.length < subs.length := Nat.mod_lt _ hm
  have hv : ∀ j, j < subs.length →
      vOf subs.length (s.pos + 1) j =
        vOf subs.length s.pos j +
          (if j = s.pos % subs.length then 1 else 0) :=
    fun j hj => vOf_succ subs.length s.pos j hm hj
  cases hx : s.exh (s.pos % subs.length) with
  | true =>
    have hlt : lenAt subs (s.pos % subs.length) <
        vOf subs.length s.pos (s.pos % subs.length) := by
      have h := hexh _ hi
      rw [hx] at h
      exact of_decide_eq_true h.symm
    have hmins : ∀ j, j < subs.length →
        min (lenAt subs j) (vOf subs.length (s.pos + 1) j) =
        min (lenAt subs j) (vOf subs.length s.pos j) := by
      intro j hj
      rw [hv j hj]
      by_cases hji : j = s.pos % subs.length
      · subst hji
        rw [if_pos rfl]
        omega
      · rw [if_neg hji]
        omega
    rw [rrStep_skip subs.length s hx]
    refine ⟨?_, ?_, ?_, hcap, hms⟩
    · intro j hj
      show s.rem j = _
      rw [hmins j hj]
      exact hrem j hj
    · intro j hj
      show s.exh j = _
      rw [hv j hj]
      by_cases hji : j = s.pos % subs.length
      · subst hji
        rw [if_pos rfl, hx]
        symm
        exact decide_eq_true (by omega)
      · rw [if_neg hji, Nat.add_zero]
        exact hexh j hj
    · show s.out.length = _
      rw [hlen]
      exact (Finset.sum_congr rfl
        (fun j hjmem => hmins j (Finset.mem_range.mp hjmem))).symm
  | false =>
    have hge : vOf subs.length s.pos (s.pos % subs.length) ≤
        lenAt subs (s.pos % subs.length) := by
      have h := hexh _ hi
      rw [hx] at h
      have h2 := of_decide_eq_false h.symm
      omega
    cases hr : s.rem (s.pos % subs.length) with
    | nil =>
      have hdrop := hrem _ hi
      rw [hr] at hdrop
      have hlen_le : lenAt subs (s.pos % subs.length) ≤
          min (lenAt subs (s.pos % subs.length))
            (vOf subs.length s.pos (s.pos % subs.length)) := by
        have hd := List.drop_eq_nil_iff.mp hdrop.symm
        simpa [lenAt] using hd
      rw [rrStep_exhaust subs.length s hx hr]
      refine ⟨?_, ?_, ?_, hcap, hms⟩
      · intro j hj
        show s.rem j = _
        by_cases hji : j = s.pos % subs.length
        · subst hji
          rw [hr, hv _ hj, if_pos rfl]
          have h1 : min (lenAt subs (s.pos % subs.length))
              (vOf subs.length s.pos (s.pos % subs.length) + 1)
              = lenAt subs (s.pos % subs.length) := by omega
          rw [h1, lenAt]
          exact (List.drop_length _).symm
        · rw [hv j hj, if_neg hji, Nat.add_zero]
          exact hrem j hj
      · intro j hj
        show Function.update s.exh (s.pos % subs.length) true j = _
        by_cases hji : j = s.pos % subs.length
        · subst hji
          rw [Function.update_same, hv _ hj, if_pos rfl]
          symm
          exact decide_eq_true (by omega)
        · rw [Function.update_noteq hji, hv j hj, if_neg hji, Nat.add_zero]
          exact hexh j hj
      · show s.out.length = _
        rw [hlen]
        refine (Finset.sum_congr rfl ?_).symm
        intro j hjmem
        have hj := Finset.mem_range.mp hjmem
        rw [hv j hj]
        by_cases hji : j = s.pos % subs.length
        · subst hji
          rw [if_pos rfl]
          omega
        · rw [if_neg hji]
          omega
    | cons x xs =>
      have hdrop := hrem _ hi
      rw [hr] at hdrop
      have hmin_lt : min (lenAt subs (s.pos % subs.length))
          (vOf subs.length s.pos (s.pos % subs.length)) <
          lenAt subs (s.pos % subs.length) := by
        by_contra hcon
        push_neg at hcon
        have hnil : (subs.getD (s.pos % subs.length) []).drop
            (min (lenAt subs (s.pos % subs.length))
              (vOf subs.length s.pos (s.pos % subs.length))) = [] :=
          List.drop_eq_nil_iff.mpr (by simpa [lenAt] using hcon)
        rw [hnil] at hdrop
        cases hdrop
      have hvi_lt : vOf subs.length s.pos (s.pos % subs.length) <
          lenAt subs (s.pos % subs.length) := by omega
      have hmin_eq : min (lenAt subs (s.pos % subs.length))
          (vOf subs.length s.pos (s.pos % subs.length)) =
          vOf subs.length s.pos (s.pos % subs.length) := by omega
      rw [rrStep_draw subs.length s x xs hx hr]
      refine ⟨?_, ?_, ?_, ?_, ?_⟩
      · intro j hj
        show Function.update s.rem (s.pos % subs.length) xs j = _
        by_cases hji : j = s.pos % subs.length
        · subst hji
          rw [Function.update_same, hv _ hj, if_pos rfl]
          have h1 : min (lenAt subs (s.pos % subs.length))
              (vOf subs.length s.pos (s.pos % subs.length) + 1)
              = vOf subs.length s.pos (s.pos % subs.length) + 1 := by omega
          rw [h1]
          rw [hmin_eq] at hdrop
          have htail := congrArg List.tail hdrop
          rw [List.tail_drop] at htail
          simpa using htail
        · rw [Function.update_noteq hji, hv j hj, if_neg hji, Nat.add_zero]
          exact hrem j hj
      · intro j hj
        show s.exh j = _
        by_cases hji : j = s.pos % subs.length
        · subst hji
          rw [hx, hv _ hj, if_pos rfl]
          symm
          exact decide_eq_false (by omega)
        · rw [hv j hj, if_neg hji, Nat.add_zero]
          exact hexh j hj
      · show (s.out ++ [x]).length = _
        have hpt : ∀ j ∈ Finset.range subs.length,
            min (lenAt subs j) (vOf subs.length (s.pos + 1) j)
              = min (lenAt subs j) (vOf subs.length s.pos j) +
                (if j = s.pos % subs.length then 1 else 0) := by
          intro j hjmem
          have hj := Finset.mem_range.mp hjmem
          rw [hv j hj]
          by_cases hji : j = s.pos % subs.length
          · subst hji
            rw [if_pos rfl]
            omega
          · rw [if_neg hji]
            omega
        rw [Finset.sum_congr rfl hpt, Finset.sum_add_distrib,
          Finset.sum_ite_eq' (Finset.range subs.length)
            (s.pos % subs.length) (fun _ => 1),
          if_pos (Finset.mem_range.mpr hi), List.length_append, hlen]
        rfl
      · show (s.out ++ [x]).length ≤ cap
        rw [List.length_append]
        have h1 := hcnd.1
        simp only [List.length_cons, List.length_nil]
        omega
      · show ((s.out ++ [x] : List α) : Multiset α) +
            ∑ j ∈ Finset.range subs.length,
              ((Function.update s.rem (s.pos % subs.length) xs j : List α) :
                Multiset α) =
            ∑ j ∈ Finset.range subs.length,
              ((subs.getD j [] : List α) : Multiset α)
        have hmem : s.pos % subs.length ∈ Finset.range subs.length :=
          Finset.mem_range.mpr hi
        have hupd : ∑ j ∈ Finset.range subs.length,
            ((Function.update s.rem (s.pos % subs.length) xs j : List α) :
              Multiset α)
            = (∑ j ∈ Finset.range subs.length \ {s.pos % subs.length},
                ((s.rem j : List α) : Multiset α)) + (xs : Multiset α) := by
          rw [Finset.sum_eq_sum_diff_singleton_add hmem]
          rw [Function.update_same]
          congr 1
          refine Finset.sum_congr rfl ?_
          intro j hjd
          have hjne : j ≠ s.pos % subs.length := by
            have h2 := (Finset.mem_sdiff.mp hjd).2
            simpa [Finset.mem_singleton] using h2
          rw [Function.update_noteq hjne]
        have hold : ∑ j ∈ Finset.range subs.length,
            ((s.rem j : List α) : Multiset α)
            = (∑ j ∈ Finset.range subs.length \ {s.pos % subs.length},
                ((s.rem j : List α) : Multiset α)) +
              ((x :: xs : List α) : Multiset α) := by
          rw [Finset.sum_eq_sum_diff_singleton_add hmem, hr]
        rw [hupd]
        rw [hold] at hms
        rw [← hms]
        simp only [← Multiset.coe_add, ← Multiset.cons_coe, Multiset.coe_nil,
          ← Multiset.singleton_add]
        abel

/-! ## Round-robin selector: loop lemmas -/

/-- When the loop returns a state, the invariant holds there and the guard is
false. -/
theorem rrLoop_final {α : Type} (subs : List (List α)) (cap : Nat) :
    ∀ (fuel : Nat) (s s' : RRState α), rrInv subs cap s →
      rrLoop subs.length cap fuel s = some s' →
      rrInv subs cap s' ∧ rrCond subs.length cap s' = false := by
  intro fuel
  induction fuel with
  | zero =>
    intro s s' hinv hloop
    simp only [rrLoop] at hloop
    split at hloop
    · cases hloop
    · next hc =>
      cases hloop
      exact ⟨hinv, by simpa using hc⟩
  | succ fuel ih =>
    intro s s' hinv hloop
    simp only [rrLoop] at hloop
    split at hloop
    · next hc => exact ih _ _ (rrInv_step subs cap s hinv hc) hloop
    · next hc =>
      cases hloop
      exact ⟨hinv, by simpa using hc⟩

/-- A budget of `(totalLen subs + 2) * subs.length` iterations always
suffices: while the guard holds, some source is not exhausted, which bounds
the number of completed rounds and hence the cycle position. -/
theorem rrLoop_isSome {α : Type} (subs : List (List α)) (cap : Nat) :
    ∀ (fuel : Nat) (s : RRState α), rrInv subs cap s →
      (totalLen subs + 2) * subs.length ≤ fuel + s.pos →
      (rrLoop subs.length cap fuel s).isSome = true := by
  intro fuel
  induction fuel with
  | zero =>
    intro s hinv hfuel
    simp only [rrLoop]
    split
    · next hc =>
      exfalso
      obtain ⟨hrem, hexh, hlen, hcap, hms⟩ := hinv
      have hcnd : s.out.length < cap ∧
          exhCount subs.length s < subs.length := by
        simpa [rrCond] using hc
      have hm : 0 < subs.length := Nat.lt_of_le_of_lt (Nat.zero_le _) hcnd.2
      obtain ⟨j, hj, hxj⟩ := (exhCount_lt_iff subs.length s).mp hcnd.2
      have hvle : vOf subs.length s.pos j ≤ lenAt subs j := by
        have h := hexh j hj
        rw [hxj] at h
        have h2 := of_decide_eq_false h.symm
        omega
      have hlenle : lenAt subs j ≤ totalLen subs := lenAt_le_total subs j hj
      have hq : s.pos / subs.length ≤ totalLen subs := by
        have h3 : s.pos / subs.length ≤ vOf subs.length s.pos j := by
          rw [vOf]
          omega
        omega
      have hdm : subs.length * (s.pos / subs.length) + s.pos % subs.length
          = s.pos := Nat.div_add_mod s.pos subs.length
      have hmod : s.pos % subs.length < subs.length := Nat.mod_lt _ hm
      have hmul : subs.length * (s.pos / subs.length)
          ≤ subs.length * totalLen subs :=
        Nat.mul_le_mul_left _ hq
      have hb : (totalLen subs + 2) * subs.length
          = subs.length * totalLen subs + 2 * subs.length := by ring
      rw [hb] at hfuel
      generalize hA : subs.length * totalLen subs = A at hmul hfuel
      generalize hB : subs.length * (s.pos / subs.length) = B at hdm hmul
      omega
    · simp
  | succ fuel ih =>
    intro s hinv hfuel
    simp only [rrLoop]
    split
    · next hc =>
      refine ih (rrStep subs.length s) (rrInv_step subs cap s hinv hc) ?_
      rw [rrStep_pos]
      generalize hF : (totalLen subs + 2) * subs.length = F at hfuel ⊢
      omega
    · simp

/-- An indexed multiset sum over positions equals the list-wise sum. -/
theorem sum_range_getD_coe {α : Type} (subs : List (List α)) :
    ∑ j ∈ Finset.range subs.length, ((subs.getD j [] : List α) : Multiset α)
      = (subs.map Multiset.ofList).sum := by
  induction subs with
  | nil => simp
  | cons a rest ih =>
    rw [List.length_cons, Finset.sum_range_succ']
    simp only [List.getD_cons_succ, List.getD_cons_zero]
    rw [ih]
    simp only [List.map_cons, List.sum_cons]
    exact add_comm _ _

/-- Filtering away the empty lists keeps the candidates' multiset. -/
theorem msum_rrSources {α : Type} (subsAll : List (List α)) :
    ((rrSources subsAll).map Multiset.ofList).sum
      = (subsAll.map Multiset.ofList).sum := by
  induction subsAll with
  | nil => rfl
  | cons a rest ih =>
    rw [rrSources, List.filter_cons]
    by_cases h : a.isEmpty
    · have ha : a = [] := List.isEmpty_iff.mp h
      subst ha
      rw [rrSources] at ih
      simpa using ih
    · have h' : (!a.isEmpty) = true := by simp [h]
      rw [if_pos h']
      simp only [List.map_cons, List.sum_cons]
      rw [rrSources] at ih
      rw [ih]

/-- Characterisation of the whole selection phase: the loop terminates within
its budget, the batch length is `min cap total`, and when the cap does not
bind, the batch holds exactly the candidates of all sources. -/
theorem rrSelect_spec {α : Type} (subsAll : List (List α)) (cap : Nat) :
    ∃ out : List α, roundRobinSelect subsAll cap = some out ∧
      out.length = min cap (totalLen subsAll) ∧
      (totalLen subsAll ≤ cap →
        (out : Multiset α) =
          (subsAll.map Multiset.ofList).sum) := by
  have hinit := rrInv_init (rrSources subsAll) cap
  have hsome := rrLoop_isSome (rrSources subsAll) cap
    (rrFuel (rrSources subsAll)) (rrInit (rrSources subsAll)) hinit
    (by simp [rrFuel, rrInit])
  obtain ⟨s', hs'⟩ := Option.isSome_iff_exists.mp hsome
  obtain ⟨⟨hrem, hexh, hlen, hcap, hms⟩, hcf⟩ :=
    rrLoop_final (rrSources subsAll) cap (rrFuel (rrSources subsAll))
      (rrInit (rrSources subsAll)) s' hinit hs'
  have htot : totalLen (rrSources subsAll) = totalLen subsAll :=
    totalLen_rrSources subsAll
  have hsumle : s'.out.length ≤ totalLen (rrSources subsAll) := by
    rw [hlen, ← sum_lenAt]
    exact Finset.sum_le_sum (fun j _ => Nat.min_le_left _ _)
  have hlenfin : s'.out.length = min cap (totalLen subsAll) := by
    have hcnd : ¬(s'.out.length < cap ∧
        exhCount (rrSources subsAll).length s'
          < (rrSources subsAll).length) := by
      intro hcontra
      have hct : rrCond (rrSources subsAll).length cap s' = true := by
        simp [rrCond, hcontra.1, hcontra.2]
      rw [hct] at hcf
      cases hcf
    by_cases hlt : s'.out.length < cap
    · have hex : ¬ exhCount (rrSources subsAll).length s'
          < (rrSources subsAll).length := fun hx => hcnd ⟨hlt, hx⟩
      have hexm : exhCount (rrSources subsAll).length s'
          = (rrSources subsAll).length :=
        le_antisymm (exhCount_le _ _) (Nat.le_of_not_lt hex)
      have hall := exhCount_eq_all _ _ hexm
      have hsum : s'.out.length = totalLen (rrSources subsAll) := by
        rw [hlen, ← sum_lenAt]
        refine Finset.sum_congr rfl ?_
        intro j hjmem
        have hj := Finset.mem_range.mp hjmem
        have h := hall j hj
        rw [hexh j hj] at h
        have h2 := of_decide_eq_true h
        omega
      rw [hsum, htot]
      have h3 : totalLen subsAll ≤ cap := by
        rw [← htot, ← hsum]
        exact hcap
      omega
    · have hcapeq : s'.out.length = cap :=
        le_antisymm hcap (Nat.le_of_not_lt hlt)
      rw [hcapeq]
      have h2 : cap ≤ totalLen subsAll := by
        rw [← htot]
        omega
      omega
  refine ⟨s'.out, ?_, hlenfin, ?_⟩
  · show (rrLoop (rrSources subsAll).length cap (rrFuel (rrSources subsAll))
        (rrInit (rrSources subsAll))).map RRState.out = some s'.out
    rw [hs']
    rfl
  · intro hle
    have houtlen : s'.out.length = totalLen subsAll := by
      rw [hlenfin]
      omega
    have hcardT : Multiset.card
        (∑ j ∈ Finset.range (rrSources subsAll).length,
          (((rrSources subsAll).getD j [] : List α) : Multiset α))
        = totalLen (rrSources subsAll) := by
      rw [map_sum Multiset.card, ← sum_lenAt]
      refine Finset.sum_congr rfl ?_
      intro j hjmem
      rw [Multiset.coe_card]
      rfl
    have hcards := congrArg Multiset.card hms
    rw [Multiset.card_add, Multiset.coe_card, hcardT] at hcards
    have hR : Multiset.card
        (∑ j ∈ Finset.range (rrSources subsAll).length,
          ((s'.rem j : List α) : Multiset α)) = 0 := by
      omega
    have hR0 : (∑ j ∈ Finset.range (rrSources subsAll).length,
        ((s'.rem j : List α) : Multiset α)) = 0 :=
      Multiset.card_eq_zero.mp hR
    rw [hR0, add_zero] at hms
    rw [hms, sum_range_getD_coe, msum_rrSources]

/-- The invariant holds at every state the guarded iteration reaches. -/
theorem rrRun_inv {α : Type} (subs : List (List α)) (cap : Nat) (n : Nat) :
    rrInv subs cap (rrRun subs.length cap (rrInit subs) n) := by
  induction n with
  | zero => exact rrInv_init subs cap
  | succ n ih =>
    simp only [rrRun]
    split
    · next hc => exact rrInv_step subs cap _ ih hc
    · exact ih

/-! ## Claims C1, C2, C10 — the round-robin selector -/

/-- C1: for every source map and cap, the selection loop completes with an
output batch of length exactly `min cap total` — so a cap of 0 yields an
empty batch — and whenever the total does not exceed the cap, the batch holds
every candidate of every source. -/
theorem c1_selection_length {α : Type} (subsAll : List (List α))
    (cap : Nat) :
    ∃ out : List α, roundRobinSelect subsAll cap = some out ∧
      out.length = min cap (totalLen subsAll) ∧
      (totalLen subsAll ≤ cap →
        (out : Multiset α) =
          (subsAll.map Multiset.ofList).sum) :=
  rrSelect_spec subsAll cap

/-- C1 witness: sources `[1,2]` and `[3]` with cap 5 select every candidate,
`[1, 3, 2]`, of length `min 5 3`. -/
theorem c1_selection_length_witness :
    roundRobinSelect [[1, 2], [3]] 5 = some [1, 3, 2] ∧
    ([1, 3, 2] : List Nat).length = min 5 (totalLen [[1, 2], [3]]) ∧
    (([1, 3, 2] : List Nat) : Multiset Nat) =
      ([[1, 2], [3]].map Multiset.ofList).sum := by
  obtain ⟨out, h1, h2, h3⟩ := c1_selection_length (α := Nat) [[1, 2], [3]] 5
  have hout : out = [1, 3, 2] := by
    have h4 : some out = some [1, 3, 2] := by
      rw [← h1]
      rfl
    exact Option.some.inj h4
  subst hout
  exact ⟨h1, h2, h3 (by decide)⟩

/-- C10: the selection loop terminates for every finite source map and every
cap: although the source cycle is unbounded, each full rotation either draws
a candidate or permanently exhausts a source, so a finite iteration budget
reaches a final state and the selector returns a result. -/
theorem c10_selection_terminates {α : Type} (subsAll : List (List α))
    (cap : Nat) : (roundRobinSelect subsAll cap).isSome = true := by
  obtain ⟨out, hout, _⟩ := rrSelect_spec subsAll cap
  rw [hout]
  rfl

/-- C2: whenever the loop is about to draw from the current source of the
cycle (guard true, source not exhausted, iterator non-empty), every other
source that still has unconsumed candidates has contributed at least as many
candidates: no source receives its (k+1)-th draw while a non-exhausted
source is still short of its k-th. -/
theorem c2_round_robin_fair {α : Type} (subsAll : List (List α))
    (cap n j : Nat)
    (hcond : rrCond (rrSources subsAll).length cap (rrReach subsAll cap n)
      = true)
    (hexh : (rrReach subsAll cap n).exh
      ((rrReach subsAll cap n).pos % (rrSources subsAll).length) = false)
    (hremi : (rrReach subsAll cap n).rem
      ((rrReach subsAll cap n).pos % (rrSources subsAll).length) ≠ [])
    (hj : j < (rrSources subsAll).length)
    (hne : j ≠ (rrReach subsAll cap n).pos % (rrSources subsAll).length)
    (hremj : (rrReach subsAll cap n).rem j ≠ []) :
    rrDrawn subsAll cap n
        ((rrReach subsAll cap n).pos % (rrSources subsAll).length) ≤
      rrDrawn subsAll cap n j := by
  have hm : 0 < (rrSources subsAll).length :=
    Nat.lt_of_le_of_lt (Nat.zero_le j) hj
  obtain ⟨hrem, hexhI, hlen, hcap, hms⟩ := rrRun_inv (rrSources subsAll) cap n
  have hre : rrRun (rrSources subsAll).length cap
      (rrInit (rrSources subsAll)) n = rrReach subsAll cap n := rfl
  rw [hre] at hrem hexhI
  have hi : (rrReach subsAll cap n).pos % (rrSources subsAll).length
      < (rrSources subsAll).length := Nat.mod_lt _ hm
  have hlendrop : ∀ t, t < (rrSources subsAll).length →
      ((rrReach subsAll cap n).rem t).length =
        lenAt (rrSources subsAll) t -
          min (lenAt (rrSources subsAll) t)
            (vOf (rrSources subsAll).length (rrReach subsAll cap n).pos t) := by
    intro t ht
    rw [hrem t ht, List.length_drop]
    rfl
  have hlti : min
      (lenAt (rrSources subsAll)
        ((rrReach subsAll cap n).pos % (rrSources subsAll).length))
      (vOf (rrSources subsAll).length (rrReach subsAll cap n).pos
        ((rrReach subsAll cap n).pos % (rrSources subsAll).length)) <
      lenAt (rrSources subsAll)
        ((rrReach subsAll cap n).pos % (rrSources subsAll).length) := by
    rcases Nat.lt_or_ge (min _ _) (lenAt (rrSources subsAll)
        ((rrReach subsAll cap n).pos % (rrSources subsAll).length))
      with h | h
    · exact h
    · exfalso
      apply hremi
      rw [hrem _ hi]
      exact List.drop_eq_nil_iff.mpr h
  have hltj : min (lenAt (rrSources subsAll) j)
      (vOf (rrSources subsAll).length (rrReach subsAll cap n).pos j) <
      lenAt (rrSources subsAll) j := by
    rcases Nat.lt_or_ge (min _ _) (lenAt (rrSources subsAll) j) with h | h
    · exact h
    · exfalso
      apply hremj
      rw [hrem _ hj]
      exact List.drop_eq_nil_iff.mpr h
  rw [rrDrawn, rrDrawn, hlendrop _ hi, hlendrop _ hj]
  simp only [vOf] at hlti hltj ⊢
  split_ifs at hlti hltj ⊢ <;> omega

/-- C2 witness: with sources `[1,2]` and `[3]` and cap 3, after one
iteration the cycle is about to draw the first candidate of source 1 while
source 0 has already contributed one candidate. -/
theorem c2_round_robin_fair_witness :
    rrDrawn [[1, 2], [3]] 3 1
        ((rrReach [[1, 2], [3]] 3 1).pos %
          (rrSources [[1, 2], [3]]).length) ≤
      rrDrawn [[1, 2], [3]] 3 1 0 :=
  c2_round_robin_fair [[1, 2], [3]] 3 1 0 (by decide) (by decide) (by decide)
    (by decide) (by decide) (by decide)

end StoryBot
